import Mathlib

/-!
# Verification of the FFI byte-buffer library (`src/lib.rs`)

Shallow embedding of the active surface of the crate:

* `new_boxed_byte_slice_buffer_raw` — the allocator shim (`allocate_zeroed`),
* `into_boxed_byte_slice_raw` — release of an owned `Box<[u8]>` (`release_buffer`),
* `string_into_boxed_byte_slice_raw` — release of a `String` (`release_text`),
* `from_boxed_byte_slice_raw` — reclaim of a raw handle (`reclaim_buffer`),
* `string_from_boxed_byte_slice_raw` — reclaim as text (`reclaim_text`).

The native heap is modelled explicitly as a list of allocated blocks keyed by
base address (address 0 is the null pointer).  A `Box<[u8]>` in the managed
regime is a pair of base address and length; its contents live in the heap.
A Rust `String` is modelled as its sequence of Unicode scalar values
(`List Char`), and the FFI boundary carries its UTF-8 byte encoding.
Machine bytes are modelled as `Nat` (values below 256 in every reachable
state); `usize` is 64 bits wide and `isize::MAX` is `2^63 - 1`.
-/

namespace FfiByteBuffer

/-- The native heap: a bump counter for fresh base addresses and the list of
live allocated blocks, most recent first, keyed by base address. -/
structure Heap where
  next : Nat
  blocks : List (Nat × List Nat)
deriving DecidableEq

/-- The block currently allocated at base address `a`, if any. -/
def Heap.lookup (h : Heap) (a : Nat) : Option (List Nat) :=
  (h.blocks.find? (fun pr => pr.1 == a)).map Prod.snd

/-- Allocate a fresh block with contents `bs`; the returned base address is
always nonzero (never the null pointer). Models a successful call into the
process's default allocator. -/
def Heap.alloc (h : Heap) (bs : List Nat) : Heap × Nat :=
  let a := h.next + 1
  (⟨a + bs.length, (a, bs) :: h.blocks⟩, a)

/-- Free the block at base address `a`. -/
def Heap.free (h : Heap) (a : Nat) : Heap :=
  ⟨h.next, h.blocks.filter (fun pr => pr.1 != a)⟩

/-- Number of live allocations (the tracking-allocator count of the spec). -/
def Heap.allocCount (h : Heap) : Nat :=
  h.blocks.length

/-- Well-formedness: every live block's base address was produced by the bump
counter, hence is at most `next`. -/
def Heap.wf (h : Heap) : Prop :=
  ∀ pr ∈ h.blocks, pr.1 ≤ h.next

instance (h : Heap) : Decidable h.wf := by
  unfold Heap.wf; exact List.decidableBAll _ _

/-- An owned byte buffer (`Box<[u8]>`) in the managed regime: its base address
and length.  The contents are held by the heap.  A `Box` of length 0 owns no
allocation and its pointer is the dangling sentinel address 1
(`NonNull::dangling()` for alignment 1). -/
structure BoxedSlice where
  addr : Nat
  len : Nat
deriving DecidableEq

/-- The empty `Box<[u8]>` (`Box::default()`): dangling pointer, no allocation. -/
def emptyBoxedSlice : BoxedSlice := ⟨1, 0⟩

/-- The bytes owned by a boxed slice: the heap block at its address
(the empty box owns no block and no bytes). -/
def BoxedSlice.contents (h : Heap) (b : BoxedSlice) : List Nat :=
  if b.len = 0 then [] else (h.lookup b.addr).getD []

/-- A boxed slice is a genuine owned buffer in heap `h`: either empty, or its
pointer is nonnull and the heap block at its address has exactly its length. -/
def BoxedSlice.validIn (b : BoxedSlice) (h : Heap) : Prop :=
  b.len = 0 ∨ (b.addr ≠ 0 ∧ (h.lookup b.addr).map List.length = some b.len)

instance (b : BoxedSlice) (h : Heap) : Decidable (b.validIn h) := by
  unfold BoxedSlice.validIn; infer_instance

/-- Running the destructor of a boxed slice (`drop`): frees its allocation,
if it has one. -/
def dropBoxedSlice (h : Heap) (b : BoxedSlice) : Heap :=
  if b.len = 0 then h else h.free b.addr

/-- `isize::MAX` on a 64-bit platform. -/
def isizeMax : Nat := 2 ^ 63 - 1

/-- The fatal exit taken by `Layout::array::<u8>(length).unwrap_or_else(|_| panic!("capacity overflow"))`. -/
inductive AllocError where
  | capacityOverflow
deriving DecidableEq

/-- Models `std::alloc::alloc_zeroed` for a layout of `n` bytes, align 1.
`allocatorOk` is the environment's choice of whether the system allocator
succeeds; on failure `alloc_zeroed` returns the null pointer. -/
def alloc_zeroed (h : Heap) (allocatorOk : Bool) (n : Nat) : Heap × Nat :=
  if allocatorOk then h.alloc (List.replicate n 0) else (h, 0)

instance {ε α : Type} [DecidableEq ε] [DecidableEq α] : DecidableEq (Except ε α) := fun x y =>
  match x, y with
  | .ok a, .ok b => if h : a = b then isTrue (by rw [h]) else isFalse (by simp [h])
  | .error a, .error b => if h : a = b then isTrue (by rw [h]) else isFalse (by simp [h])
  | .ok _, .error _ => isFalse (by simp)
  | .error _, .ok _ => isFalse (by simp)

/-- `pub fn new_boxed_byte_slice_buffer_raw(length: usize) -> *mut u8`
(the spec's `allocate_zeroed`):
if `length == 0` return null; compute `Layout::array::<u8>(length)`, panicking
with "capacity overflow" if the size exceeds `isize::MAX`; then return the
result of `alloc_zeroed(layout)` as is — the source performs no null check on
the allocator's result. -/
def new_boxed_byte_slice_buffer_raw (h : Heap) (allocatorOk : Bool) (length : Nat) :
    Except AllocError (Heap × Nat) :=
  if length = 0 then .ok (h, 0)
  else if length ≤ isizeMax then .ok (alloc_zeroed h allocatorOk length)
  else .error .capacityOverflow

/-- `pub fn into_boxed_byte_slice_raw(src: Box<[u8]>) -> (*const u8, usize)`
(the spec's `release_buffer`): empty input collapses to `(null, 0)`; otherwise
the pair `(src.as_ptr(), src.len())` is returned and `ManuallyDrop::new(src)`
suppresses the destructor, so the heap is untouched. -/
def into_boxed_byte_slice_raw (h : Heap) (src : BoxedSlice) : Heap × (Nat × Nat) :=
  if src.len = 0 then (h, (0, 0))
  else (h, (src.addr, src.len))

/-- `pub fn from_boxed_byte_slice_raw(slice_ptr: *mut u8, length: usize) -> Box<[u8]>`
(the spec's `reclaim_buffer`): zero length yields `Box::default()` with the
pointer ignored; otherwise `Box::from_raw` re-adopts the block at `slice_ptr`
of length `length`, with no heap effect. -/
def from_boxed_byte_slice_raw (h : Heap) (slice_ptr : Nat) (length : Nat) :
    Heap × BoxedSlice :=
  if length = 0 then (h, emptyBoxedSlice)
  else (h, ⟨slice_ptr, length⟩)

/-! ## Text side

A Rust `String` is its sequence of Unicode scalar values; crossing the FFI
boundary it is represented by its UTF-8 encoding.  `str::trim` removes the
characters with the Unicode `White_Space` property from both ends
(`char::is_whitespace`). -/

/-- UTF-8 encoding of one Unicode scalar value `c < 0x110000`
(Rust `char::encode_utf8` semantics, written with division and remainder:
`c / 0x40 = c >> 6` and `c % 0x40 = c & 0x3F`). -/
def utf8EncodeScalar (c : Nat) : List Nat :=
  if c < 0x80 then [c]
  else if c < 0x800 then [0xC0 + c / 0x40, 0x80 + c % 0x40]
  else if c < 0x10000 then [0xE0 + c / 0x1000, 0x80 + c / 0x40 % 0x40, 0x80 + c % 0x40]
  else [0xF0 + c / 0x40000, 0x80 + c / 0x1000 % 0x40, 0x80 + c / 0x40 % 0x40, 0x80 + c % 0x40]

/-- The UTF-8 bytes of a text (`String::as_bytes`). -/
def utf8EncodeText (s : List Char) : List Nat :=
  (s.map Char.toNat).flatMap utf8EncodeScalar

/-- Unchecked UTF-8 decoding to scalar values, driven by the lead byte of each
sequence; `fuel` bounds the number of decoded characters.  On valid UTF-8 input
this inverts `utf8EncodeScalar`; on invalid input (a precondition violation of
`str::from_boxed_utf8_unchecked`) its result carries no guarantee. -/
def utf8DecodeScalars : Nat → List Nat → List Nat
  | 0, _ => []
  | _ + 1, [] => []
  | fuel + 1, b :: bs =>
    if b < 0x80 then b :: utf8DecodeScalars fuel bs
    else if b < 0xE0 then
      match bs with
      | b1 :: bs1 => ((b % 0x20) * 0x40 + b1 % 0x40) :: utf8DecodeScalars fuel bs1
      | [] => []
    else if b < 0xF0 then
      match bs with
      | b1 :: b2 :: bs1 =>
          ((b % 0x10) * 0x1000 + (b1 % 0x40) * 0x40 + b2 % 0x40) :: utf8DecodeScalars fuel bs1
      | _ => []
    else
      match bs with
      | b1 :: b2 :: b3 :: bs1 =>
          ((b % 8) * 0x40000 + (b1 % 0x40) * 0x1000 + (b2 % 0x40) * 0x40 + b3 % 0x40) ::
            utf8DecodeScalars fuel bs1
      | _ => []

/-- A byte buffer read back as text (`str::from_boxed_utf8_unchecked` —
no validation is performed). -/
def utf8DecodeText (bs : List Nat) : List Char :=
  (utf8DecodeScalars bs.length bs).map Char.ofNat

/-- Rust `char::is_whitespace`: the Unicode `White_Space` property
(PropList.txt of the Unicode Character Database). -/
def rustIsWhitespace (c : Char) : Bool :=
  (0x9 ≤ c.toNat && c.toNat ≤ 0xD) || c.toNat = 0x20 || c.toNat = 0x85 || c.toNat = 0xA0 ||
    c.toNat = 0x1680 || (0x2000 ≤ c.toNat && c.toNat ≤ 0x200A) || c.toNat = 0x2028 ||
    c.toNat = 0x2029 || c.toNat = 0x202F || c.toNat = 0x205F || c.toNat = 0x3000

/-- Rust `str::trim_start`: drop the longest whitespace prefix. -/
def trimStart (s : List Char) : List Char :=
  s.dropWhile rustIsWhitespace

/-- Rust `str::trim_end`: drop the longest whitespace suffix. -/
def trimEnd (s : List Char) : List Char :=
  (s.reverse.dropWhile rustIsWhitespace).reverse

/-- Rust `str::trim`: drop whitespace from both ends. -/
def rustTrim (s : List Char) : List Char :=
  trimEnd (trimStart s)

/-- `Box::<[u8]>::from(src: &[u8])`: copy the bytes into a fresh allocation
(the empty slice allocates nothing). -/
def boxFromBytes (h : Heap) (bs : List Nat) : Heap × BoxedSlice :=
  if bs.isEmpty then (h, emptyBoxedSlice)
  else
    let r := h.alloc bs
    (r.1, ⟨r.2, bs.length⟩)

/-- `pub fn string_into_boxed_byte_slice_raw(src: String) -> (*const u8, usize)`
(the spec's `release_text`): empty input collapses to `(null, 0)`; otherwise
`Box::from(src.as_str().as_bytes())` copies the UTF-8 bytes into a fresh boxed
slice which is then released by `into_boxed_byte_slice_raw`. -/
def string_into_boxed_byte_slice_raw (h : Heap) (src : List Char) : Heap × (Nat × Nat) :=
  if src.isEmpty then (h, (0, 0))
  else
    let r := boxFromBytes h (utf8EncodeText src)
    into_boxed_byte_slice_raw r.1 r.2

/-- `pub fn string_from_boxed_byte_slice_raw(slice_ptr: *mut u8, length: usize, trim: bool) -> String`
(the spec's `reclaim_text`): zero length yields the empty string with the
pointer ignored; otherwise the handle is reclaimed by
`from_boxed_byte_slice_raw`, reinterpreted as text without validation, copied
out by `to_string` (trimmed first when `trim` is set), and the reclaimed boxed
slice is dropped, freeing its allocation. -/
def string_from_boxed_byte_slice_raw (h : Heap) (slice_ptr : Nat) (length : Nat)
    (trim : Bool) : Heap × List Char :=
  if length = 0 then (h, [])
  else
    let r := from_boxed_byte_slice_raw h slice_ptr length
    let str := utf8DecodeText (BoxedSlice.contents r.1 r.2)
    (dropBoxedSlice r.1 r.2, if trim then rustTrim str else str)

/-! ## Supporting lemmas -/

theorem utf8DecodeScalars_nil (fuel : Nat) : utf8DecodeScalars fuel [] = [] := by
  cases fuel <;> rfl

theorem charToNat_lt_largeScalar (c : Char) : c.toNat < 0x110000 := by
  rcases c.valid with h | ⟨h0, h⟩ <;> (show c.val.toNat < _) <;> omega

theorem utf8DecodeScalars_encode_cons (c : Nat) (hc : c < 0x110000) (fuel : Nat)
    (t : List Nat) :
    utf8DecodeScalars (fuel + 1) (utf8EncodeScalar c ++ t) = c :: utf8DecodeScalars fuel t := by
  unfold utf8EncodeScalar
  by_cases h1 : c < 0x80
  · simp [utf8DecodeScalars, h1]
  · by_cases h2 : c < 0x800
    · have hb1 : ¬ (0xC0 + c / 0x40 < 0x80) := by omega
      have hb2 : 0xC0 + c / 0x40 < 0xE0 := by omega
      simp [utf8DecodeScalars, h1, h2, hb1, hb2]
      omega
    · by_cases h3 : c < 0x10000
      · have hb1 : ¬ (0xE0 + c / 0x1000 < 0x80) := by omega
        have hb2 : ¬ (0xE0 + c / 0x1000 < 0xE0) := by omega
        have hb3 : 0xE0 + c / 0x1000 < 0xF0 := by omega
        simp [utf8DecodeScalars, h1, h2, h3, hb1, hb2, hb3]
        omega
      · have hb1 : ¬ (0xF0 + c / 0x40000 < 0x80) := by omega
        have hb2 : ¬ (0xF0 + c / 0x40000 < 0xE0) := by omega
        have hb3 : ¬ (0xF0 + c / 0x40000 < 0xF0) := by omega
        simp [utf8DecodeScalars, h1, h2, h3, hb1, hb2, hb3]
        omega

theorem utf8DecodeScalars_encodeAll (cs : List Nat) (hc : ∀ c ∈ cs, c < 0x110000) :
    ∀ fuel, cs.length ≤ fuel → utf8DecodeScalars fuel (cs.flatMap utf8EncodeScalar) = cs := by
  induction cs with
  | nil => intro fuel _; simpa using utf8DecodeScalars_nil fuel
  | cons c cs ih =>
    intro fuel hf
    cases fuel with
    | zero => simp at hf
    | succ f =>
      rw [List.flatMap_cons, utf8DecodeScalars_encode_cons c (hc c (by simp)) f,
        ih (fun x hx => hc x (by simp [hx])) f (by simpa using hf)]

theorem utf8EncodeScalar_length_pos (c : Nat) : 0 < (utf8EncodeScalar c).length := by
  unfold utf8EncodeScalar
  split_ifs <;> simp

theorem length_le_length_encodeAll (cs : List Nat) :
    cs.length ≤ (cs.flatMap utf8EncodeScalar).length := by
  induction cs with
  | nil => simp
  | cons c cs ih =>
    have := utf8EncodeScalar_length_pos c
    simp only [List.flatMap_cons, List.length_append, List.length_cons]
    omega

theorem utf8DecodeText_encodeText (s : List Char) : utf8DecodeText (utf8EncodeText s) = s := by
  unfold utf8DecodeText utf8EncodeText
  rw [utf8DecodeScalars_encodeAll (s.map Char.toNat)
    (by
      intro c hcmem
      obtain ⟨x, _, rfl⟩ := List.mem_map.mp hcmem
      exact charToNat_lt_largeScalar x)
    ((s.map Char.toNat).flatMap utf8EncodeScalar).length
    (by simpa using length_le_length_encodeAll (s.map Char.toNat))]
  have h : Char.ofNat ∘ Char.toNat = id := funext Char.ofNat_toNat
  rw [List.map_map, h, List.map_id]

theorem utf8EncodeText_ne_nil {s : List Char} (hs : ¬ s.isEmpty) : ¬ (utf8EncodeText s).isEmpty := by
  have h1 := length_le_length_encodeAll (s.map Char.toNat)
  rw [List.isEmpty_iff_length_eq_zero] at hs ⊢
  unfold utf8EncodeText
  simp only [List.length_map] at h1
  omega

theorem Heap.lookup_alloc (h : Heap) (bs : List Nat) :
    (h.alloc bs).1.lookup (h.alloc bs).2 = some bs := by
  simp [Heap.alloc, Heap.lookup]

theorem Heap.lookup_fresh (h : Heap) (hwf : h.wf) : h.lookup (h.next + 1) = none := by
  unfold Heap.lookup
  rw [List.find?_eq_none.mpr]
  · rfl
  · intro x hx
    have := hwf x hx
    simp only [Bool.not_eq_true, beq_eq_false_iff_ne, ne_eq]
    omega

theorem head_of_dropWhile_false {α : Type} {p : α → Bool} {l : List α} {c : α}
    (h : c ∈ (l.dropWhile p).head?) : p c = false := by
  have hmatch := List.head?_dropWhile_not p l
  rw [Option.mem_def] at h
  rw [h] at hmatch
  exact hmatch

theorem dropWhile_eq_self_of_head {α : Type} {p : α → Bool} {l : List α}
    (h : ∀ c ∈ l.head?, p c = false) : l.dropWhile p = l := by
  cases l with
  | nil => rfl
  | cons a t =>
    have ha : p a = false := h a rfl
    simp [List.dropWhile_cons, ha]

theorem rustTrim_decompose (s : List Char) :
    ∃ pre post, s = pre ++ rustTrim s ++ post ∧
      (∀ c ∈ pre, rustIsWhitespace c = true) ∧ (∀ c ∈ post, rustIsWhitespace c = true) := by
  refine ⟨s.takeWhile rustIsWhitespace,
    ((trimStart s).reverse.takeWhile rustIsWhitespace).reverse, ?_, ?_, ?_⟩
  · have h1 : s.takeWhile rustIsWhitespace ++ trimStart s = s :=
      List.takeWhile_append_dropWhile rustIsWhitespace s
    have h2 : (trimStart s).reverse.takeWhile rustIsWhitespace ++
        (trimStart s).reverse.dropWhile rustIsWhitespace = (trimStart s).reverse :=
      List.takeWhile_append_dropWhile rustIsWhitespace (trimStart s).reverse
    have h3 := congrArg List.reverse h2
    rw [List.reverse_append, List.reverse_reverse] at h3
    conv_lhs => rw [← h1, ← h3]
    rw [rustTrim, trimEnd]
    simp [List.append_assoc]
  · intro c hc
    exact List.mem_takeWhile_imp hc
  · intro c hc
    rw [List.mem_reverse] at hc
    exact List.mem_takeWhile_imp hc

theorem rustTrim_head_not_whitespace (s : List Char) :
    ∀ c ∈ (rustTrim s).head?, rustIsWhitespace c = false := by
  intro c hc
  have h2 : (trimStart s).reverse.takeWhile rustIsWhitespace ++
      (trimStart s).reverse.dropWhile rustIsWhitespace = (trimStart s).reverse :=
    List.takeWhile_append_dropWhile rustIsWhitespace (trimStart s).reverse
  have h3 := congrArg List.reverse h2
  rw [List.reverse_append, List.reverse_reverse] at h3
  have hpre : rustTrim s ++ ((trimStart s).reverse.takeWhile rustIsWhitespace).reverse
      = trimStart s := by
    rw [rustTrim, trimEnd]; exact h3
  rw [Option.mem_def] at hc
  have hstart : (trimStart s).head? = some c := by
    rw [← hpre, List.head?_append, hc]; rfl
  exact head_of_dropWhile_false (p := rustIsWhitespace) (l := s) (Option.mem_def.mpr hstart)

theorem rustTrim_getLast_not_whitespace (s : List Char) :
    ∀ c ∈ (rustTrim s).getLast?, rustIsWhitespace c = false := by
  intro c hc
  rw [rustTrim, trimEnd, List.getLast?_reverse] at hc
  exact head_of_dropWhile_false hc

theorem rustTrim_eq_self_of_not_whitespace {s : List Char}
    (hh : ∀ c ∈ s.head?, rustIsWhitespace c = false)
    (hl : ∀ c ∈ s.getLast?, rustIsWhitespace c = false) : rustTrim s = s := by
  have h1 : trimStart s = s := dropWhile_eq_self_of_head hh
  rw [rustTrim, h1, trimEnd, dropWhile_eq_self_of_head, List.reverse_reverse]
  intro c hc
  rw [List.head?_reverse] at hc
  exact hl c hc

/-! ## Composite operations -/

/-- Release an owned buffer and reclaim the resulting raw handle
(`reclaim_buffer(release_buffer(B))`). -/
def releaseThenReclaim (h : Heap) (B : BoxedSlice) : Heap × BoxedSlice :=
  let r := into_boxed_byte_slice_raw h B
  from_boxed_byte_slice_raw r.1 r.2.1 r.2.2

/-- Reclaim a raw handle and release the resulting owned buffer
(`release_buffer(reclaim_buffer(p, n))`). -/
def reclaimThenRelease (h : Heap) (p n : Nat) : Heap × (Nat × Nat) :=
  let r := from_boxed_byte_slice_raw h p n
  into_boxed_byte_slice_raw r.1 r.2

/-- Release a text and reclaim the resulting raw handle as text
(`reclaim_text(release_text(T), trim)`). -/
def releaseThenReclaimText (h : Heap) (T : List Char) (trim : Bool) : Heap × List Char :=
  let r := string_into_boxed_byte_slice_raw h T
  string_from_boxed_byte_slice_raw r.1 r.2.1 r.2.2 trim

/-- The value returned by `reclaim_text(release_text(T), trim)`: the original
text, trimmed when `trim` is set. -/
theorem releaseThenReclaimText_val (h : Heap) (T : List Char) (trim : Bool) :
    (releaseThenReclaimText h T trim).2 = if trim then rustTrim T else T := by
  by_cases hT : T.isEmpty
  · rw [List.isEmpty_iff] at hT
    subst hT
    cases trim <;>
      simp [releaseThenReclaimText, string_into_boxed_byte_slice_raw,
        string_from_boxed_byte_slice_raw, rustTrim, trimStart, trimEnd]
  · have hbytes := utf8EncodeText_ne_nil hT
    rw [List.isEmpty_iff_length_eq_zero] at hbytes
    have hTnil : ¬ (T = []) := by
      intro hcon; subst hcon; exact hT rfl
    have hbnil : ¬ (utf8EncodeText T = []) := by
      intro hcon; rw [hcon] at hbytes; exact hbytes rfl
    have hlk : (h.alloc (utf8EncodeText T)).1.lookup (h.next + 1)
        = some (utf8EncodeText T) := Heap.lookup_alloc h (utf8EncodeText T)
    simp [releaseThenReclaimText, string_into_boxed_byte_slice_raw, boxFromBytes,
      into_boxed_byte_slice_raw, from_boxed_byte_slice_raw,
      string_from_boxed_byte_slice_raw, BoxedSlice.contents, Heap.alloc,
      hTnil, hbnil, hbytes] at hlk ⊢
    rw [hlk]
    simp [utf8DecodeText_encodeText]

/-! ## Claim theorems -/

/-- C1: for every owned byte buffer `B`, reclaiming the handle produced by
releasing `B` (`reclaim_buffer` applied to the pointer and length returned by
`release_buffer(B)`) yields an owned buffer equal to `B` in both length and
contents. -/
theorem release_reclaim_identity (h : Heap) (B : BoxedSlice) (_hv : B.validIn h) :
    (releaseThenReclaim h B).2.len = B.len ∧
    BoxedSlice.contents (releaseThenReclaim h B).1 (releaseThenReclaim h B).2
      = BoxedSlice.contents h B := by
  by_cases hB : B.len = 0
  · simp [releaseThenReclaim, into_boxed_byte_slice_raw, from_boxed_byte_slice_raw, hB,
      emptyBoxedSlice, BoxedSlice.contents]
  · simp [releaseThenReclaim, into_boxed_byte_slice_raw, from_boxed_byte_slice_raw, hB,
      BoxedSlice.contents]

/-- Witness for C1 at the owned buffer `(addr 2, len 3)` holding `[7, 8, 9]`. -/
theorem release_reclaim_identity_witness :
    BoxedSlice.validIn ⟨2, 3⟩ ⟨5, [(2, [7, 8, 9])]⟩ ∧
    ((releaseThenReclaim ⟨5, [(2, [7, 8, 9])]⟩ ⟨2, 3⟩).2.len = BoxedSlice.len ⟨2, 3⟩ ∧
      BoxedSlice.contents (releaseThenReclaim ⟨5, [(2, [7, 8, 9])]⟩ ⟨2, 3⟩).1
          (releaseThenReclaim ⟨5, [(2, [7, 8, 9])]⟩ ⟨2, 3⟩).2
        = BoxedSlice.contents ⟨5, [(2, [7, 8, 9])]⟩ ⟨2, 3⟩) :=
  ⟨by decide, release_reclaim_identity ⟨5, [(2, [7, 8, 9])]⟩ ⟨2, 3⟩ (by decide)⟩

/-- C2: releasing a non-empty owned buffer returns exactly its base address and
length; the heap is left untouched, so the buffer's memory is not freed (the
consumed input's destructor does not run, the allocation count is unchanged)
and no copy is made — the returned pointer is the buffer's own address. -/
theorem release_nonempty_detaches (h : Heap) (B : BoxedSlice) (hne : B.len ≠ 0) :
    into_boxed_byte_slice_raw h B = (h, (B.addr, B.len)) ∧
    Heap.lookup (into_boxed_byte_slice_raw h B).1 B.addr = h.lookup B.addr ∧
    Heap.allocCount (into_boxed_byte_slice_raw h B).1 = h.allocCount := by
  simp [into_boxed_byte_slice_raw, hne]

/-- Witness for C2 at the owned buffer `(addr 2, len 3)` holding `[7, 8, 9]`. -/
theorem release_nonempty_detaches_witness :
    BoxedSlice.len ⟨2, 3⟩ ≠ 0 ∧
    (into_boxed_byte_slice_raw ⟨5, [(2, [7, 8, 9])]⟩ ⟨2, 3⟩
        = (⟨5, [(2, [7, 8, 9])]⟩, (BoxedSlice.addr ⟨2, 3⟩, BoxedSlice.len ⟨2, 3⟩)) ∧
      Heap.lookup (into_boxed_byte_slice_raw ⟨5, [(2, [7, 8, 9])]⟩ ⟨2, 3⟩).1
          (BoxedSlice.addr ⟨2, 3⟩)
        = Heap.lookup ⟨5, [(2, [7, 8, 9])]⟩ (BoxedSlice.addr ⟨2, 3⟩) ∧
      Heap.allocCount (into_boxed_byte_slice_raw ⟨5, [(2, [7, 8, 9])]⟩ ⟨2, 3⟩).1
        = Heap.allocCount ⟨5, [(2, [7, 8, 9])]⟩) :=
  ⟨by decide, release_nonempty_detaches ⟨5, [(2, [7, 8, 9])]⟩ ⟨2, 3⟩ (by decide)⟩

/-- C5: every release operation maps an empty input to the canonical handle
`(null, 0)`, and every reclaim operation maps length zero to the empty buffer
or empty text, ignoring the pointer value (it holds for an arbitrary pointer
`p`, which is never looked up) and leaving the heap untouched (no allocation). -/
theorem null_empty_policy (h : Heap) (B : BoxedSlice) (p : Nat) (trim : Bool)
    (hB : B.len = 0) :
    into_boxed_byte_slice_raw h B = (h, (0, 0)) ∧
    string_into_boxed_byte_slice_raw h [] = (h, (0, 0)) ∧
    from_boxed_byte_slice_raw h p 0 = (h, emptyBoxedSlice) ∧
    emptyBoxedSlice.len = 0 ∧ BoxedSlice.contents h emptyBoxedSlice = [] ∧
    string_from_boxed_byte_slice_raw h p 0 trim = (h, []) := by
  refine ⟨?_, ?_, ?_, ?_, ?_, ?_⟩ <;>
    simp [into_boxed_byte_slice_raw, string_into_boxed_byte_slice_raw,
      from_boxed_byte_slice_raw, string_from_boxed_byte_slice_raw, hB,
      emptyBoxedSlice, BoxedSlice.contents]

/-- Witness for C5 at an empty buffer, the nonnull pointer `42` and `trim = true`. -/
theorem null_empty_policy_witness :
    BoxedSlice.len ⟨1, 0⟩ = 0 ∧
    (into_boxed_byte_slice_raw ⟨0, []⟩ ⟨1, 0⟩ = (⟨0, []⟩, (0, 0)) ∧
      string_into_boxed_byte_slice_raw ⟨0, []⟩ [] = (⟨0, []⟩, (0, 0)) ∧
      from_boxed_byte_slice_raw ⟨0, []⟩ 42 0 = (⟨0, []⟩, emptyBoxedSlice) ∧
      emptyBoxedSlice.len = 0 ∧ BoxedSlice.contents ⟨0, []⟩ emptyBoxedSlice = [] ∧
      string_from_boxed_byte_slice_raw ⟨0, []⟩ 42 0 true = (⟨0, []⟩, [])) :=
  ⟨by decide, null_empty_policy ⟨0, []⟩ ⟨1, 0⟩ 42 true (by decide)⟩

/-- C10: for every non-null pointer `p` and non-zero length `n`, releasing the
buffer obtained by reclaiming `(p, n)` returns exactly the same handle, with
the heap untouched: the reclaim-then-release direction of the round trip. -/
theorem reclaim_release_handle_identity (h : Heap) (p n : Nat) (_hp : p ≠ 0) (hn : n ≠ 0) :
    reclaimThenRelease h p n = (h, (p, n)) := by
  simp [reclaimThenRelease, from_boxed_byte_slice_raw, into_boxed_byte_slice_raw, hn]

/-- Witness for C10 at the handle `(addr 2, len 3)`. -/
theorem reclaim_release_handle_identity_witness :
    (2 : Nat) ≠ 0 ∧ (3 : Nat) ≠ 0 ∧
    reclaimThenRelease ⟨5, [(2, [7, 8, 9])]⟩ 2 3 = (⟨5, [(2, [7, 8, 9])]⟩, (2, 3)) :=
  ⟨by decide, by decide,
    reclaim_release_handle_identity ⟨5, [(2, [7, 8, 9])]⟩ 2 3 (by decide) (by decide)⟩

/-- C6: `allocate_zeroed(0)` returns the null sentinel; for `0 < N` (within the
layout bound, allocator succeeding) it returns a fresh non-null pointer to a
region of exactly `N` zero octets, and reclaiming that pointer with the same
length `N` yields an owned buffer containing exactly `N` zero octets. -/
theorem allocate_zeroed_contents (h : Heap) (n : Nat) (hwf : h.wf) (hn : n ≤ isizeMax) :
    new_boxed_byte_slice_buffer_raw h true 0 = .ok (h, 0) ∧
    (0 < n → ∃ h₁ p, new_boxed_byte_slice_buffer_raw h true n = .ok (h₁, p) ∧ p ≠ 0 ∧
      h.lookup p = none ∧ h₁.lookup p = some (List.replicate n 0) ∧
      (from_boxed_byte_slice_raw h₁ p n).2.len = n ∧
      BoxedSlice.contents (from_boxed_byte_slice_raw h₁ p n).1
        (from_boxed_byte_slice_raw h₁ p n).2 = List.replicate n 0) := by
  constructor
  · simp [new_boxed_byte_slice_buffer_raw]
  · intro hpos
    have hne : ¬ (n = 0) := by omega
    refine ⟨(h.alloc (List.replicate n 0)).1, h.next + 1, ?_, by omega,
      Heap.lookup_fresh h hwf, Heap.lookup_alloc h (List.replicate n 0), ?_, ?_⟩
    · simp [new_boxed_byte_slice_buffer_raw, alloc_zeroed, Heap.alloc, hne, hn]
    · simp [from_boxed_byte_slice_raw, hne]
    · simp only [from_boxed_byte_slice_raw, if_neg hne, BoxedSlice.contents]
      rw [show (h.alloc (List.replicate n 0)).1.lookup (h.next + 1)
          = some (List.replicate n 0) from Heap.lookup_alloc h (List.replicate n 0)]
      rfl

/-- Witness for C6 at the empty heap and `N = 2`. -/
theorem allocate_zeroed_contents_witness :
    Heap.wf ⟨0, []⟩ ∧ 2 ≤ isizeMax ∧
    (new_boxed_byte_slice_buffer_raw ⟨0, []⟩ true 0 = .ok (⟨0, []⟩, 0) ∧
      (0 < 2 → ∃ h₁ p, new_boxed_byte_slice_buffer_raw ⟨0, []⟩ true 2 = .ok (h₁, p) ∧
        p ≠ 0 ∧ Heap.lookup ⟨0, []⟩ p = none ∧
        h₁.lookup p = some (List.replicate 2 0) ∧
        (from_boxed_byte_slice_raw h₁ p 2).2.len = 2 ∧
        BoxedSlice.contents (from_boxed_byte_slice_raw h₁ p 2).1
          (from_boxed_byte_slice_raw h₁ p 2).2 = List.replicate 2 0)) :=
  ⟨by decide, by decide, allocate_zeroed_contents ⟨0, []⟩ 2 (by decide) (by decide)⟩

/-- C7 is refuted by the code: when the system allocator reports failure
(`alloc_zeroed` returns null), `new_boxed_byte_slice_buffer_raw` completes
normally and hands the null pointer back for the non-zero requested length 1 —
the source performs no null check, so control does return with an invalid
pointer and no `AllocationFailure` condition is raised. -/
theorem allocation_failure_returns_null :
    new_boxed_byte_slice_buffer_raw ⟨0, []⟩ false 1 = .ok (⟨0, []⟩, 0) := by decide

/-- C8: the call fails with `CapacityOverflow` (a fatal error modelled as
`Except.error`, not a normal return) exactly when the requested length exceeds
`isize::MAX`, i.e. when `Layout::array::<u8>(length)` overflows the
address-size integer; for every representable length no `CapacityOverflow`
occurs. -/
theorem capacity_overflow_iff (h : Heap) (allocatorOk : Bool) (n : Nat) (hn : n < 2 ^ 64) :
    (new_boxed_byte_slice_buffer_raw h allocatorOk n = .error .capacityOverflow
      ↔ isizeMax < n) := by
  unfold new_boxed_byte_slice_buffer_raw isizeMax
  split_ifs with h0 hle <;> simp <;> omega

/-- Witness for C8 at `n = isize::MAX + 1 = 2^63` (overflow) — the hypothesis
`n < 2^64` is discharged there. -/
theorem capacity_overflow_iff_witness :
    2 ^ 63 < 2 ^ 64 ∧
    (new_boxed_byte_slice_buffer_raw ⟨0, []⟩ true (2 ^ 63) = .error .capacityOverflow
      ↔ isizeMax < 2 ^ 63) :=
  ⟨by norm_num, capacity_overflow_iff ⟨0, []⟩ true (2 ^ 63) (by norm_num)⟩

/-- C9 is refuted by the code: the null-iff-zero-length invariant fails on the
allocator shim.  When the system allocator reports failure, the unchecked
`alloc_zeroed` result makes `new_boxed_byte_slice_buffer_raw` complete normally
and pair the null pointer with the non-zero requested length 2, so a null
pointer IS paired with a non-zero length — the missing null check of C7 also
breaks this invariant. -/
theorem handle_invariant_violated_on_alloc_failure :
    new_boxed_byte_slice_buffer_raw ⟨0, []⟩ false 2 = .ok (⟨0, []⟩, 0) ∧ ¬ (2 = 0) := by
  decide

/-- C3: for every UTF-8 text `T`, `reclaim_text(release_text(T), false)` yields
a text equal to `T`; in particular releasing `"hello"` yields a handle of
length 5 whose bytes are `0x68 0x65 0x6C 0x6C 0x6F`. -/
theorem text_roundtrip_no_trim (h : Heap) (T : List Char) :
    (releaseThenReclaimText h T false).2 = T ∧
    (string_into_boxed_byte_slice_raw h "hello".data).2.2 = 5 ∧
    Heap.lookup (string_into_boxed_byte_slice_raw h "hello".data).1
        (string_into_boxed_byte_slice_raw h "hello".data).2.1
      = some [0x68, 0x65, 0x6C, 0x6C, 0x6F] := by
  have hb : utf8EncodeText "hello".data = [0x68, 0x65, 0x6C, 0x6C, 0x6F] := by decide
  have hTnil : ¬ ("hello".data = []) := by decide
  have hlk : (h.alloc (utf8EncodeText "hello".data)).1.lookup (h.next + 1)
      = some (utf8EncodeText "hello".data) :=
    Heap.lookup_alloc h (utf8EncodeText "hello".data)
  refine ⟨by simpa using releaseThenReclaimText_val h T false, ?_, ?_⟩
  · simp [string_into_boxed_byte_slice_raw, boxFromBytes, into_boxed_byte_slice_raw,
      Heap.alloc, hTnil, hb]
  · simp [string_into_boxed_byte_slice_raw, boxFromBytes, into_boxed_byte_slice_raw,
      Heap.alloc, hTnil, hb] at hlk ⊢
    simp [hlk]

/-- Witness for C3 at the empty heap and the text `"hello"`. -/
theorem text_roundtrip_no_trim_witness :
    (releaseThenReclaimText ⟨0, []⟩ "hello".data false).2 = "hello".data ∧
    (string_into_boxed_byte_slice_raw ⟨0, []⟩ "hello".data).2.2 = 5 ∧
    Heap.lookup (string_into_boxed_byte_slice_raw ⟨0, []⟩ "hello".data).1
        (string_into_boxed_byte_slice_raw ⟨0, []⟩ "hello".data).2.1
      = some [0x68, 0x65, 0x6C, 0x6C, 0x6F] :=
  text_roundtrip_no_trim ⟨0, []⟩ "hello".data

/-- C4: for every UTF-8 text `T`, `reclaim_text(release_text(T), true)` yields
`T` with all leading and trailing characters having the Unicode `White_Space`
property removed (the result is a contiguous infix of `T`, so interior
whitespace is never removed, and whitespace never remains at either end); if
`T` has no leading or trailing whitespace the result equals `T`. -/
theorem text_roundtrip_trim (h : Heap) (T : List Char) :
    (releaseThenReclaimText h T true).2 = rustTrim T ∧
    (∃ pre post, T = pre ++ rustTrim T ++ post ∧
      (∀ c ∈ pre, rustIsWhitespace c = true) ∧ (∀ c ∈ post, rustIsWhitespace c = true)) ∧
    (∀ c ∈ (rustTrim T).head?, rustIsWhitespace c = false) ∧
    (∀ c ∈ (rustTrim T).getLast?, rustIsWhitespace c = false) ∧
    ((∀ c ∈ T.head?, rustIsWhitespace c = false) →
      (∀ c ∈ T.getLast?, rustIsWhitespace c = false) →
      (releaseThenReclaimText h T true).2 = T) := by
  have hval : (releaseThenReclaimText h T true).2 = rustTrim T := by
    simpa using releaseThenReclaimText_val h T true
  refine ⟨hval, rustTrim_decompose T, rustTrim_head_not_whitespace T,
    rustTrim_getLast_not_whitespace T, ?_⟩
  intro hh hl
  rw [hval]
  exact rustTrim_eq_self_of_not_whitespace hh hl

/-- Witness for C4 at the empty heap and the text `"  hi\n"` of scenario S4. -/
theorem text_roundtrip_trim_witness :
    (releaseThenReclaimText ⟨0, []⟩ "  hi\n".data true).2 = rustTrim "  hi\n".data ∧
    (∃ pre post, "  hi\n".data = pre ++ rustTrim "  hi\n".data ++ post ∧
      (∀ c ∈ pre, rustIsWhitespace c = true) ∧ (∀ c ∈ post, rustIsWhitespace c = true)) ∧
    (∀ c ∈ (rustTrim "  hi\n".data).head?, rustIsWhitespace c = false) ∧
    (∀ c ∈ (rustTrim "  hi\n".data).getLast?, rustIsWhitespace c = false) ∧
    ((∀ c ∈ "  hi\n".data.head?, rustIsWhitespace c = false) →
      (∀ c ∈ "  hi\n".data.getLast?, rustIsWhitespace c = false) →
      (releaseThenReclaimText ⟨0, []⟩ "  hi\n".data true).2 = "  hi\n".data) :=
  text_roundtrip_trim ⟨0, []⟩ "  hi\n".data

end FfiByteBuffer
